import Mathlib

/-!
# elastic_tools: the apply dispatcher and the interactive shell

A shallow embedding of `cmd/apply.go` (the action of the `apply` command) and of
`cmd/root.go` (`parseCLIArguments` and the two callbacks handed to `prompt.New`).

Go strings are Lean strings, slices are lists, a map is a partial function on its keys.
Calls into collaborators that live outside these two files (the command runner, the
appliers, the body decoders, the file reader) are parameters of the model, and every
call that has an effect is recorded in an explicit log.
-/

set_option autoImplicit false

namespace ElasticTools

/-! ## Go standard library: package strings -/

/-- Go strings.HasPrefix(s, p): does s begin with p. -/
def HasPrefix (s p : String) : Bool :=
  p.data.isPrefixOf s.data

/-- Pieces of a character list around every occurrence of sep; there is always one more
piece than there are separators. -/
def splitChars (sep : Char) : List Char → List (List Char)
  | [] => [[]]
  | c :: cs =>
    if c = sep then [] :: splitChars sep cs
    else
      match splitChars sep cs with
      | [] => [[c]]
      | piece :: rest => (c :: piece) :: rest

/-- Go strings.Split(s, sep) for a separator that is one character long, which is how
root.go calls it (sep is one space). -/
def Split (s : String) (sep : Char) : List String :=
  (splitChars sep s.data).map String.mk

/-- Go unicode.IsSpace: the code points with the Unicode White_Space property. -/
def isSpace (c : Char) : Bool :=
  let n := c.toNat
  (0x09 ≤ n && n ≤ 0x0D) || n = 0x20 || n = 0x85 || n = 0xA0 || n = 0x1680 ||
  (0x2000 ≤ n && n ≤ 0x200A) || n = 0x2028 || n = 0x2029 || n = 0x202F ||
  n = 0x205F || n = 0x3000

/-- The loop of strings.Fields: cur holds the characters of the field being read,
newest first. -/
def fieldsFrom : List Char → List Char → List String
  | [], cur => if cur.isEmpty then [] else [String.mk cur.reverse]
  | c :: cs, cur =>
    if isSpace c then
      if cur.isEmpty then fieldsFrom cs [] else String.mk cur.reverse :: fieldsFrom cs []
    else fieldsFrom cs (c :: cur)

/-- Go strings.Fields(s): the maximal runs of non-space characters of s, in order. -/
def Fields (s : String) : List String :=
  fieldsFrom s.data []

/-- Go strings.ToUpper on ASCII text, where it maps a..z to A..Z and nothing else.
It is used to evaluate the model on concrete ASCII inputs; the general results hold for
any upper-casing function. -/
def ToUpperASCII (s : String) : String :=
  String.mk (s.data.map Char.toUpper)

/-! ## go-prompt: suggestions and their filter -/

/-- The prompt.Suggest of go-prompt. -/
structure Suggest where
  Text : String
  Description : String
  deriving DecidableEq

/-- The filterSuggestions of go-prompt (filter.go). An empty sub keeps every suggestion;
otherwise, with ignoreCase set, both sub and each text are upper-cased before function
compares them. -/
def filterSuggestions (upper : String → String) (suggestions : List Suggest) (sub : String)
    (ignoreCase : Bool) (function : String → String → Bool) : List Suggest :=
  if sub = "" then suggestions
  else
    let sub := if ignoreCase then upper sub else sub
    suggestions.filter fun s =>
      let c := if ignoreCase then upper s.Text else s.Text
      function c sub

/-- The prompt.FilterHasPrefix(completions, sub, ignoreCase) of go-prompt. -/
def FilterHasPrefix (upper : String → String) (completions : List Suggest) (sub : String)
    (ignoreCase : Bool) : List Suggest :=
  filterSuggestions upper completions sub ignoreCase HasPrefix

/-- What the completion callback reads off a prompt.Document: the results of
TextBeforeCursor() and GetWordBeforeCursor(). -/
structure Document where
  TextBeforeCursor : String
  GetWordBeforeCursor : String
  deriving DecidableEq

/-! ## cmd/root.go -/

/-- The Name and Usage of a cli.Command, the two fields root.go reads. -/
structure Command where
  Name : String
  Usage : String
  deriving DecidableEq

/-- The constant APP_NAME. -/
def APP_NAME : String := "elastic_tools"

/-- The function parseCLIArguments of root.go. -/
def parseCLIArguments (input : String) : List String :=
  let arguments := Fields input
  if arguments.length = 0 then []
  else [APP_NAME] ++ arguments

/-- One pass of the loop over args in the completion callback: a token that starts with
a dash or a single quote is skipped, a token that is a key of options replaces suggest. -/
def scanStep (options : String → Option (List Suggest)) (suggest : List Suggest)
    (arg : String) : List Suggest :=
  if HasPrefix arg "-" || HasPrefix arg "'" then suggest
  else
    match options arg with
    | some aux => aux
    | none => suggest

/-- The completion callback of NewPrompt (second argument of prompt.New). The command
list is app.Commands, options is the map returned by LoadOptions(app.Commands), and upper
stands for strings.ToUpper, which FilterHasPrefix calls when ignoreCase is true. -/
def completer (upper : String → String) (commands : List Command)
    (options : String → Option (List Suggest)) (d : Document) : List Suggest :=
  if d.TextBeforeCursor = "" then []
  else
    let args := Split d.TextBeforeCursor ' '
    let w := d.GetWordBeforeCursor
    if args.length < 2 then
      FilterHasPrefix upper (commands.map fun cmd => Suggest.mk cmd.Name cmd.Usage) w true
    else
      FilterHasPrefix upper (args.foldl (scanStep options) []) w true

/-- What the executor callback does to the outside world, in order. -/
inductive Effect (E : Type) where
  | Println (s : String)
  | PrintlnErr (err : E)
  | Exit (code : Int)
  | Run (arguments : List String)
  deriving DecidableEq

/-- The executor callback of NewPrompt (first argument of prompt.New). The parameter run
is app.Run: it takes the argument list and the state of the outside world and returns
an error or nil together with the new state. os.Exit ends the process, so nothing follows
an Exit effect. -/
def executor {E σ : Type} (run : List String → σ → Option E × σ) (input : String) (w : σ) :
    List (Effect E) × σ :=
  if input = "exit" then ([Effect.Println "Exiting REPL...", Effect.Exit 0], w)
  else
    let cliArguments := parseCLIArguments input
    if cliArguments.length > 0 then
      match run cliArguments w with
      | (some err, w') => ([Effect.Run cliArguments, Effect.PrintlnErr err], w')
      | (none, w') => ([Effect.Run cliArguments], w')
    else ([], w)

/-- The suggest slice the completion callback has built when it returns, before the
filter is applied: nothing for an empty text, the top-level commands when the text has
fewer than two pieces, the result of the scan over the pieces otherwise. -/
def candidates (commands : List Command) (options : String → Option (List Suggest))
    (text : String) : List Suggest :=
  if text = "" then []
  else if (Split text ' ').length < 2 then
    commands.map fun cmd => Suggest.mk cmd.Name cmd.Usage
  else (Split text ' ').foldl (scanStep options) []

/-- Is the effect a call of app.Run. -/
def Effect.isRun {E : Type} : Effect E → Bool
  | Effect.Run _ => true
  | _ => false

/-! ## Go standard library: errors and encoding/json -/

/-- A Go error value. New is errors.New(text); SyntaxError and UnmarshalTypeError are
the two errors of encoding/json, the second with its Value (what the JSON held) and its
Field; External is an error made by a collaborator outside the two files. -/
inductive GoError (E : Type) where
  | New (text : String)
  | SyntaxError (msg : String)
  | UnmarshalTypeError (Value : String) (Field : String)
  | External (e : E)
  deriving DecidableEq

/-- A JSON value as encoding/json reads it; the members of an object stay in document
order, duplicates included. -/
inductive Json where
  | null
  | bool (b : Bool)
  | number (literal : String)
  | string (s : String)
  | array (items : List Json)
  | object (members : List (String × Json))

/-- A byte string given to json.Unmarshal, as its validity check sees it: not JSON, with
the message of the syntax error, or the text of one JSON value. -/
inductive Bytes where
  | invalid (msg : String)
  | valid (v : Json)

/-- No bytes at all, the zero value of json.RawMessage: the scanner reports the end of
the input. -/
def Bytes.empty : Bytes := Bytes.invalid "unexpected end of JSON input"

/-- The Value that encoding/json puts in an UnmarshalTypeError. -/
def Json.describe : Json → String
  | Json.null => "null"
  | Json.bool _ => "bool"
  | Json.number _ => "number"
  | Json.string _ => "string"
  | Json.array _ => "array"
  | Json.object _ => "object"

/-- Does c equal the lower-case ASCII letter under Unicode simple case folding: the
letter, its capital, and for k and s the Kelvin sign and the long s. -/
def foldsTo (lower c : Char) : Bool :=
  c = lower || c = lower.toUpper || (lower = 'k' && c.toNat = 0x212A) ||
    (lower = 's' && c.toNat = 0x17F)

/-- The field lookup of encoding/json for a field whose name is lower-case ASCII: a key names
the field when it equals the name exactly or under case folding. -/
def nameMatches (name key : String) : Bool :=
  key.data.length = name.data.length && (List.zipWith foldsTo name.data key.data).all id

/-! ## cmd/apply.go -/

/-- The struct ApplyFile: Kind is the json field kind, Body (a json.RawMessage) the json
field body. -/
structure ApplyFile where
  Kind : String
  Body : Bytes

/-- The decoder state of json.Unmarshal while it fills an ApplyFile: the struct so far
and the first type error saved. -/
structure DecodeState (E : Type) where
  applyFile : ApplyFile
  savedError : Option (GoError E)

/-- One member of the top-level object, as json.Unmarshal stores it into an ApplyFile.
A string goes into Kind, null leaves Kind alone, any other value for kind saves a type
error (the first one is kept) and decoding goes on; any value at all goes into the raw
Body; a key that names neither field is skipped. -/
def storeMember {E : Type} (st : DecodeState E) (m : String × Json) : DecodeState E :=
  if nameMatches "kind" m.1 then
    match m.2 with
    | Json.string s => ⟨⟨s, st.applyFile.Body⟩, st.savedError⟩
    | Json.null => st
    | v =>
      match st.savedError with
      | some e => ⟨st.applyFile, some e⟩
      | none => ⟨st.applyFile, some (GoError.UnmarshalTypeError v.describe "kind")⟩
  else if nameMatches "body" m.1 then ⟨⟨st.applyFile.Kind, Bytes.valid m.2⟩, st.savedError⟩
  else st

/-- The call json.Unmarshal([]byte(contentFile), &applyFile) on a zero ApplyFile. Bytes
that are not JSON give the syntax error; null leaves the struct zero; an object is stored
member by member, fields it does not mention staying zero; any other value is a type
error. -/
def unmarshalApplyFile {E : Type} (data : Bytes) : Except (GoError E) ApplyFile :=
  match data with
  | Bytes.invalid msg => Except.error (GoError.SyntaxError msg)
  | Bytes.valid Json.null => Except.ok ⟨"", Bytes.empty⟩
  | Bytes.valid (Json.object members) =>
    match members.foldl storeMember (DecodeState.mk ⟨"", Bytes.empty⟩ none) with
    | ⟨_, some e⟩ => Except.error e
    | ⟨applyFile, none⟩ => Except.ok applyFile
  | Bytes.valid v => Except.error (GoError.UnmarshalTypeError v.describe "")

/-- The call json.Unmarshal(applyFile.Body, &target) for a target whose type is owned
outside the two files: bytes that are not JSON give the syntax error, a JSON value goes
to the decoder of the target type. -/
def unmarshalBody {E T : Type} (decode : Json → Except (GoError E) T) (data : Bytes) :
    Except (GoError E) T :=
  match data with
  | Bytes.invalid msg => Except.error (GoError.SyntaxError msg)
  | Bytes.valid v => decode v

/-- The collaborators of the apply action: file.ReadJSONFile, the decoding of a JSON value
into []SecurityUser and into types.Command, and the two appliers, which act on the state
of the outside world and return an error or nil. -/
structure Collaborators (E σ U C : Type) where
  ReadJSONFile : String → Except (GoError E) Bytes
  decodeSecurityUsers : Json → Except (GoError E) U
  decodeCommand : Json → Except (GoError E) C
  ApplySecurityUsers : U → σ → Option (GoError E) × σ
  ApplyClusterReroute : C → σ → Option (GoError E) × σ

/-- A call of an applier, with its argument. -/
inductive Call (U C : Type) where
  | ApplySecurityUsers (securityUser : U)
  | ApplyClusterReroute (rerouteCommand : C)
  deriving DecidableEq

/-- What one run of the apply action leaves behind: the error it returns (none is nil),
the applier calls it made, in order, and the state of the outside world. -/
structure Outcome (E σ U C : Type) where
  err : Option (GoError E)
  calls : List (Call U C)
  world : σ

/-- The Action of ApplyCommand, given the value of the file flag and the state of the
outside world. -/
def Action {E σ U C : Type} (env : Collaborators E σ U C) (filePath : String) (w : σ) :
    Outcome E σ U C :=
  match env.ReadJSONFile filePath with
  | Except.error err => ⟨some err, [], w⟩
  | Except.ok contentFile =>
    match unmarshalApplyFile contentFile with
    | Except.error err => ⟨some err, [], w⟩
    | Except.ok applyFile =>
      if applyFile.Kind = "SecurityUser" then
        match unmarshalBody env.decodeSecurityUsers applyFile.Body with
        | Except.error err => ⟨some err, [], w⟩
        | Except.ok securityUser =>
          match env.ApplySecurityUsers securityUser w with
          | (some err, w') => ⟨some err, [Call.ApplySecurityUsers securityUser], w'⟩
          | (none, w') => ⟨none, [Call.ApplySecurityUsers securityUser], w'⟩
      else if applyFile.Kind = "ClusterReroute" then
        match unmarshalBody env.decodeCommand applyFile.Body with
        | Except.error err => ⟨some err, [], w⟩
        | Except.ok rerouteCommand =>
          match env.ApplyClusterReroute rerouteCommand w with
          | (some err, w') => ⟨some err, [Call.ApplyClusterReroute rerouteCommand], w'⟩
          | (none, w') => ⟨none, [Call.ApplyClusterReroute rerouteCommand], w'⟩
      else ⟨some (GoError.New "Unknown kind"), [], w⟩

/-- Does the object have a member that names the field. -/
def hasField (name : String) (members : List (String × Json)) : Bool :=
  members.any fun m => nameMatches name m.1

/-! ## The statements of the specification, in its own words -/

/-- A token the specification lets select a candidate set: a catalog key that starts
neither with the flag marker nor with a single or double quote. -/
def selectsPerSpec (options : String → Option (List Suggest)) (arg : String) : Bool :=
  !HasPrefix arg "-" && !HasPrefix arg "'" && !HasPrefix arg "\"" && (options arg).isSome

/-- The candidate set of the specification: the catalog entry of the last selecting
token, empty when there is none. -/
def candidatesPerSpec (options : String → Option (List Suggest)) (args : List String) :
    List Suggest :=
  match (args.filter (selectsPerSpec options)).getLast? with
  | some k => (options k).getD []
  | none => []

/-- A token the code lets select a candidate set: a catalog key that starts neither with
a dash nor with a single quote. -/
def selects (options : String → Option (List Suggest)) (arg : String) : Bool :=
  !HasPrefix arg "-" && !HasPrefix arg "'" && (options arg).isSome

/-- The catalog entry of the last selecting token, empty when there is none. -/
def lastSelected (options : String → Option (List Suggest)) (args : List String) :
    List Suggest :=
  match (args.filter (selects options)).getLast? with
  | some k => (options k).getD []
  | none => []

/-! ## Concrete inputs -/

/-- The catalog with the single key search. -/
def searchCatalog (k : String) : Option (List Suggest) :=
  if k = "search" then some [⟨"by-id", "By ID"⟩, ⟨"by-query", "By Query"⟩] else none

/-- A command list with the single command index. -/
def indexCommands : List Command := [⟨"index", "Index operations"⟩]

/-- The catalog of indexCommands: index has the children create and delete. -/
def indexCatalog (k : String) : Option (List Suggest) :=
  if k = "index" then some [⟨"create", "Create an index"⟩, ⟨"delete", "Delete an index"⟩]
  else none

/-- A command runner that succeeds and leaves the world alone. -/
def runOk (_ : List String) (w : Unit) : Option String × Unit := (none, w)

/-- Collaborators for concrete runs: every path holds the given bytes, a user list is a
JSON array, a reroute command is a JSON object, and the appliers answer by the world, which
is the error the cluster would give, if any. -/
def fileEnv (content : Bytes) : Collaborators String (Option String) (List Json) Json where
  ReadJSONFile := fun _ => Except.ok content
  decodeSecurityUsers := fun v =>
    match v with
    | Json.array items => Except.ok items
    | Json.null => Except.ok []
    | v => Except.error (GoError.UnmarshalTypeError v.describe "")
  decodeCommand := fun v =>
    match v with
    | Json.object members => Except.ok (Json.object members)
    | Json.null => Except.ok Json.null
    | v => Except.error (GoError.UnmarshalTypeError v.describe "")
  ApplySecurityUsers := fun _ w => (w.map GoError.External, w)
  ApplyClusterReroute := fun _ w => (w.map GoError.External, w)

/-- The manifest that is the empty object. -/
def emptyObject : Bytes := Bytes.valid (Json.object [])

/-- A manifest of kind SecurityUser without a body. -/
def usersNoBody : Bytes := Bytes.valid (Json.object [("kind", Json.string "SecurityUser")])

/-- A manifest of the lower-case kind securityuser. -/
def lowerKind : Bytes :=
  Bytes.valid (Json.object [("kind", Json.string "securityuser"), ("body", Json.array [])])

/-- A reroute manifest with an empty command object. -/
def rerouteManifest : Bytes :=
  Bytes.valid (Json.object [("kind", Json.string "ClusterReroute"), ("body", Json.object [])])

/-- A reroute manifest whose body is a number. -/
def rerouteBadBody : Bytes :=
  Bytes.valid (Json.object [("kind", Json.string "ClusterReroute"), ("body", Json.number "1")])

/-! ## Lemmas -/

theorem splitChars_length (sep : Char) (cs : List Char) :
    (splitChars sep cs).length = cs.count sep + 1 := by
  induction cs with
  | nil => simp [splitChars]
  | cons c cs ih =>
    by_cases h : c = sep
    · subst h
      simp [splitChars, ih]
    · have hne : (c == sep) = false := by simpa using h
      cases hs : splitChars sep cs with
      | nil => simp [hs] at ih
      | cons piece rest =>
        rw [hs] at ih
        simp only [splitChars, h, if_false, hs, List.length_cons] at ih ⊢
        rw [List.count_cons, hne]
        simpa using ih

theorem Split_length (s : String) (sep : Char) :
    (Split s sep).length = s.data.count sep + 1 := by
  simp [Split, splitChars_length]

theorem Split_length_lt_two (s : String) (sep : Char) :
    (Split s sep).length < 2 ↔ sep ∉ s.data := by
  rw [Split_length, ← List.count_eq_zero]
  omega

theorem filterSuggestions_ignoreCase (upper : String → String) (cands : List Suggest)
    (w : String) (f : String → String → Bool) :
    filterSuggestions upper cands w true f =
      cands.filter fun s => decide (w = "") || f (upper s.Text) (upper w) := by
  unfold filterSuggestions
  by_cases h : w = ""
  · simp [h]
  · simp [h]

theorem foldl_scanStep (options : String → Option (List Suggest)) (args : List String)
    (init : List Suggest) :
    args.foldl (scanStep options) init =
      match (args.filter (selects options)).getLast? with
      | some k => (options k).getD []
      | none => init := by
  induction args generalizing init with
  | nil => simp
  | cons a rest ih =>
    rw [List.foldl_cons, ih]
    by_cases hsel : selects options a = true
    · have hstep : scanStep options init a = (options a).getD [] := by
        simp only [selects, Bool.and_eq_true, Bool.not_eq_true'] at hsel
        obtain ⟨⟨h1, h2⟩, h3⟩ := hsel
        obtain ⟨v, hv⟩ := Option.isSome_iff_exists.mp h3
        simp [scanStep, h1, h2, hv]
      rw [List.filter_cons_of_pos hsel, hstep]
      cases hl : (rest.filter (selects options)).getLast? with
      | none =>
        have : rest.filter (selects options) = [] := List.getLast?_eq_none_iff.mp hl
        simp [this]
      | some k =>
        have hne : rest.filter (selects options) ≠ [] := by
          intro h
          simp [h] at hl
        obtain ⟨b, l, hbl⟩ := List.exists_cons_of_ne_nil hne
        rw [hbl] at hl ⊢
        rw [List.getLast?_cons_cons, hl]
    · have hsel' : selects options a = false := by simpa using hsel
      have hstep : scanStep options init a = init := by
        unfold scanStep
        by_cases hq : (HasPrefix a "-" || HasPrefix a "'") = true
        · simp [hq]
        · have hq' : (HasPrefix a "-" || HasPrefix a "'") = false := by simpa using hq
          simp only [Bool.or_eq_false_iff] at hq'
          have hopt : options a = none := by
            simp only [selects, hq'.1, hq'.2] at hsel'
            simpa using hsel'
          simp [hq'.1, hq'.2, hopt]
      rw [List.filter_cons_of_neg (by simpa using hsel'), hstep]

theorem foldl_scanStep_nil (options : String → Option (List Suggest)) (args : List String) :
    args.foldl (scanStep options) [] = lastSelected options args := by
  rw [foldl_scanStep]
  unfold lastSelected
  rfl

theorem fieldsFrom_eq_nil (cs cur : List Char) :
    fieldsFrom cs cur = [] ↔ cur = [] ∧ ∀ c ∈ cs, isSpace c = true := by
  induction cs generalizing cur with
  | nil => cases cur <;> simp [fieldsFrom]
  | cons c cs ih =>
    by_cases hc : isSpace c = true
    · cases cur with
      | nil => simp [fieldsFrom, hc, ih]
      | cons x xs => simp [fieldsFrom, hc]
    · simp [fieldsFrom, hc, ih]

theorem completer_eq (upper : String → String) (commands : List Command)
    (options : String → Option (List Suggest)) (text w : String) :
    completer upper commands options ⟨text, w⟩ =
      FilterHasPrefix upper (candidates commands options text) w true := by
  unfold completer candidates
  by_cases h : text = ""
  · simp [h, FilterHasPrefix, filterSuggestions]
  · simp only [h, if_false]
    split <;> rfl

theorem foldl_storeMember_noKind {E : Type} (members : List (String × Json))
    (st : DecodeState E) (h : hasField "kind" members = false) :
    (members.foldl storeMember st).applyFile.Kind = st.applyFile.Kind ∧
      (members.foldl storeMember st).savedError = st.savedError := by
  induction members generalizing st with
  | nil => simp
  | cons m rest ih =>
    simp only [hasField, List.any_cons, Bool.or_eq_false_iff] at h
    have hrest : hasField "kind" rest = false := h.2
    have hstep : (storeMember st m).applyFile.Kind = st.applyFile.Kind ∧
        (storeMember st m).savedError = st.savedError := by
      unfold storeMember
      simp only [h.1, Bool.false_eq_true, if_false]
      split <;> simp
    rw [List.foldl_cons]
    exact ⟨(ih _ hrest).1.trans hstep.1, (ih _ hrest).2.trans hstep.2⟩

theorem foldl_storeMember_noBody {E : Type} (members : List (String × Json))
    (st : DecodeState E) (h : hasField "body" members = false) :
    (members.foldl storeMember st).applyFile.Body = st.applyFile.Body := by
  induction members generalizing st with
  | nil => simp
  | cons m rest ih =>
    simp only [hasField, List.any_cons, Bool.or_eq_false_iff] at h
    have hrest : hasField "body" rest = false := h.2
    have hstep : (storeMember st m).applyFile.Body = st.applyFile.Body := by
      unfold storeMember
      split
      · split <;> try rfl
        split <;> rfl
      · simp only [h.1, Bool.false_eq_true, if_false]
    rw [List.foldl_cons]
    exact (ih _ hrest).trans hstep

theorem unmarshalApplyFile_object {E : Type} (members : List (String × Json)) :
    (unmarshalApplyFile (Bytes.valid (Json.object members)) : Except (GoError E) ApplyFile) =
      match members.foldl storeMember (DecodeState.mk ⟨"", Bytes.empty⟩ none) with
      | ⟨_, some e⟩ => Except.error e
      | ⟨applyFile, none⟩ => Except.ok applyFile := rfl

theorem unmarshalApplyFile_noKind {E : Type} (members : List (String × Json))
    (h : hasField "kind" members = false) :
    ∃ body, (unmarshalApplyFile (Bytes.valid (Json.object members)) :
      Except (GoError E) ApplyFile) = Except.ok ⟨"", body⟩ := by
  have hk := foldl_storeMember_noKind (E := E) members (DecodeState.mk ⟨"", Bytes.empty⟩ none) h
  rw [unmarshalApplyFile_object]
  cases hst : members.foldl storeMember (DecodeState.mk (E := E) ⟨"", Bytes.empty⟩ none) with
  | mk af saved =>
    rw [hst] at hk
    obtain ⟨hkind, hsaved⟩ := hk
    simp only at hkind hsaved
    subst hsaved
    cases af with
    | mk kind body =>
      simp only at hkind
      subst hkind
      exact ⟨body, rfl⟩

theorem unmarshalApplyFile_noBody {E : Type} (members : List (String × Json))
    (applyFile : ApplyFile) (h : hasField "body" members = false)
    (hdec : (unmarshalApplyFile (Bytes.valid (Json.object members)) :
      Except (GoError E) ApplyFile) = Except.ok applyFile) :
    applyFile.Body = Bytes.empty := by
  have hb := foldl_storeMember_noBody (E := E) members (DecodeState.mk ⟨"", Bytes.empty⟩ none) h
  rw [unmarshalApplyFile_object] at hdec
  cases hst : members.foldl storeMember (DecodeState.mk (E := E) ⟨"", Bytes.empty⟩ none) with
  | mk af saved =>
    rw [hst] at hb hdec
    cases saved with
    | some e => simp at hdec
    | none =>
      simp only [Except.ok.injEq] at hdec
      subst hdec
      exact hb

theorem splitChars_of_not_mem (sep : Char) (xs : List Char) (h : sep ∉ xs) :
    splitChars sep xs = [xs] := by
  induction xs with
  | nil => rfl
  | cons c xs ih =>
    have hc : c ≠ sep := fun hc => h (by simp [hc])
    have hx : sep ∉ xs := fun hx => h (List.mem_cons_of_mem _ hx)
    simp [splitChars, hc, ih hx]

theorem splitChars_append_sep (sep : Char) (xs ys : List Char) (h : sep ∉ xs) :
    splitChars sep (xs ++ sep :: ys) = xs :: splitChars sep ys := by
  induction xs with
  | nil => simp [splitChars]
  | cons c xs ih =>
    have hc : c ≠ sep := fun hc => h (by simp [hc])
    have hx : sep ∉ xs := fun hx => h (List.mem_cons_of_mem _ hx)
    simp [splitChars, hc, ih hx]

theorem fieldsFrom_eq_splitChars (cs cur : List Char)
    (hcs : ∀ c ∈ cs, isSpace c = true → c = ' ') (hcur : ' ' ∉ cur) :
    fieldsFrom cs cur =
      ((splitChars ' ' (cur.reverse ++ cs)).filter fun p => !p.isEmpty).map String.mk := by
  induction cs generalizing cur with
  | nil =>
    have hr : ' ' ∉ cur.reverse := by simpa using hcur
    rw [List.append_nil, splitChars_of_not_mem _ _ hr]
    cases cur <;> simp [fieldsFrom]
  | cons c cs ih =>
    have hcs' : ∀ d ∈ cs, isSpace d = true → d = ' ' :=
      fun d hd => hcs d (List.mem_cons_of_mem _ hd)
    by_cases hsp : isSpace c = true
    · have hc : c = ' ' := hcs c (List.mem_cons_self _ _) hsp
      subst hc
      have hr : ' ' ∉ cur.reverse := by simpa using hcur
      have hnil := ih [] hcs' (by simp)
      simp only [List.reverse_nil, List.nil_append] at hnil
      rw [splitChars_append_sep _ _ _ hr]
      cases cur with
      | nil => simp [fieldsFrom, hsp, hnil]
      | cons x xs => simp [fieldsFrom, hsp, hnil]
    · have hc : c ≠ ' ' := by
        intro hc
        subst hc
        exact hsp (by decide)
      have hcur' : ' ' ∉ c :: cur := by
        simp only [List.mem_cons, not_or]
        exact ⟨fun h => hc h.symm, hcur⟩
      have := ih (c :: cur) hcs' hcur'
      simp only [List.reverse_cons, List.append_assoc, List.singleton_append] at this
      simp [fieldsFrom, hsp, this]

theorem Fields_eq_Split (text : String) (h : ∀ c ∈ text.data, isSpace c = true → c = ' ') :
    Fields text = (Split text ' ').filter fun s => decide (s ≠ "") := by
  unfold Fields Split
  rw [fieldsFrom_eq_splitChars text.data [] h (by simp), List.filter_map]
  simp only [List.reverse_nil, List.nil_append]
  congr 1
  apply List.filter_congr
  intro p _
  cases p <;> simp [String.ext_iff]

theorem selects_filter_nonempty (options : String → Option (List Suggest))
    (args : List String) (h : options "" = none) :
    (args.filter fun s => decide (s ≠ "")).filter (selects options) =
      args.filter (selects options) := by
  rw [List.filter_filter]
  apply List.filter_congr
  intro a _
  by_cases ha : a = ""
  · subst ha
    simp [selects, h]
  · simp [ha]

theorem selects_eq_selectsPerSpec (options : String → Option (List Suggest))
    (h : ∀ k, HasPrefix k "\"" = true → options k = none) (arg : String) :
    selects options arg = selectsPerSpec options arg := by
  unfold selects selectsPerSpec
  by_cases hq : HasPrefix arg "\"" = true
  · simp [h arg hq]
  · have hq' : HasPrefix arg "\"" = false := by simpa using hq
    simp [hq']

theorem lastSelected_eq_candidatesPerSpec (options : String → Option (List Suggest))
    (h : ∀ k, HasPrefix k "\"" = true → options k = none) (args : List String) :
    lastSelected options args = candidatesPerSpec options args := by
  unfold lastSelected candidatesPerSpec
  rw [List.filter_congr fun a _ => selects_eq_selectsPerSpec options h a]

/-! ## The apply action -/

/-- C1: a manifest whose envelope decodes and whose kind is neither SecurityUser nor
ClusterReroute makes the apply action return the error Unknown kind, with no applier
called and the outside world untouched. -/
theorem apply_unknown_kind {E σ U C : Type} (env : Collaborators E σ U C) (filePath : String)
    (w : σ) (manifest : Bytes) (applyFile : ApplyFile)
    (hread : env.ReadJSONFile filePath = Except.ok manifest)
    (hdec : (unmarshalApplyFile manifest : Except (GoError E) ApplyFile) = Except.ok applyFile)
    (hu : applyFile.Kind ≠ "SecurityUser") (hc : applyFile.Kind ≠ "ClusterReroute") :
    Action env filePath w = ⟨some (GoError.New "Unknown kind"), [], w⟩ := by
  simp [Action, hread, hdec, hu, hc]

/-- Witness of C1: the kind securityuser, in lower case, is rejected as unknown. -/
theorem apply_unknown_kind_witness :
    "securityuser" ≠ "SecurityUser" ∧ "securityuser" ≠ "ClusterReroute" ∧
      Action (fileEnv lowerKind) "m.json" none = ⟨some (GoError.New "Unknown kind"), [], none⟩ :=
  ⟨by decide, by decide,
    apply_unknown_kind (fileEnv lowerKind) "m.json" none lowerKind
      ⟨"securityuser", Bytes.valid (Json.array [])⟩ rfl rfl (by decide) (by decide)⟩

/-- Counterexample to C2: the manifest that is the empty object has neither kind nor
body, yet its envelope decodes (kind is the empty string) and the action reports an unknown
kind; and a SecurityUser manifest without body decodes too and fails only when the body is
decoded. -/
theorem apply_missing_field_counterexample :
    hasField "kind" [] = false ∧ hasField "body" [] = false ∧
      (unmarshalApplyFile emptyObject : Except (GoError String) ApplyFile) =
        Except.ok ⟨"", Bytes.empty⟩ ∧
      Action (fileEnv emptyObject) "m.json" none =
        ⟨some (GoError.New "Unknown kind"), [], none⟩ ∧
      hasField "body" [("kind", Json.string "SecurityUser")] = false ∧
      (unmarshalApplyFile usersNoBody : Except (GoError String) ApplyFile) =
        Except.ok ⟨"SecurityUser", Bytes.empty⟩ ∧
      Action (fileEnv usersNoBody) "m.json" none =
        ⟨some (GoError.SyntaxError "unexpected end of JSON input"), [], none⟩ :=
  ⟨by decide, by decide, rfl, rfl, by decide, rfl, rfl⟩

/-- C2, amended: when the envelope does not decode, in particular when the bytes are not
JSON, the action returns the error of the envelope decoding, calls no applier and leaves
the world alone. A missing field is no such error: an object without a kind member is
reported as an unknown kind, and an object without a body member whose kind is one of the
two known ones fails with the syntax error of the body decoding. -/
theorem apply_envelope_error {E σ U C : Type} (env : Collaborators E σ U C) (filePath : String)
    (w : σ) (manifest : Bytes) (hread : env.ReadJSONFile filePath = Except.ok manifest) :
    (∀ msg, manifest = Bytes.invalid msg →
      Action env filePath w = ⟨some (GoError.SyntaxError msg), [], w⟩) ∧
    (∀ e, (unmarshalApplyFile manifest : Except (GoError E) ApplyFile) = Except.error e →
      Action env filePath w = ⟨some e, [], w⟩) ∧
    (∀ members, manifest = Bytes.valid (Json.object members) →
      hasField "kind" members = false →
      Action env filePath w = ⟨some (GoError.New "Unknown kind"), [], w⟩) ∧
    (∀ members applyFile, manifest = Bytes.valid (Json.object members) →
      hasField "body" members = false →
      (unmarshalApplyFile manifest : Except (GoError E) ApplyFile) = Except.ok applyFile →
      applyFile.Kind = "SecurityUser" ∨ applyFile.Kind = "ClusterReroute" →
      Action env filePath w =
        ⟨some (GoError.SyntaxError "unexpected end of JSON input"), [], w⟩) := by
  refine ⟨?_, ?_, ?_, ?_⟩
  · intro msg hm
    subst hm
    simp [Action, hread, unmarshalApplyFile]
  · intro e he
    simp [Action, hread, he]
  · intro members hm hk
    subst hm
    obtain ⟨body, hb⟩ := unmarshalApplyFile_noKind (E := E) members hk
    simp [Action, hread, hb]
  · intro members applyFile hm hb hdec hkind
    subst hm
    have hbody := unmarshalApplyFile_noBody members applyFile hb hdec
    rcases hkind with hk | hk
    · simp [Action, hread, hdec, hk, hbody, unmarshalBody, Bytes.empty]
    · simp [Action, hread, hdec, hk, hbody, unmarshalBody, Bytes.empty]

/-- Witness of C2, amended: bytes that are not JSON give back the syntax error. -/
theorem apply_envelope_error_witness :
    Action (fileEnv (Bytes.invalid "invalid character")) "m.json" none =
      ⟨some (GoError.SyntaxError "invalid character"), [], none⟩ :=
  (apply_envelope_error (fileEnv (Bytes.invalid "invalid character")) "m.json" none
    (Bytes.invalid "invalid character") rfl).1 "invalid character" rfl

/-- C8: when the kind is ClusterReroute and the body decodes to a command, the action
calls ApplyClusterReroute once with that command and nothing else, and returns what the
call returned, nil or the very error; the same holds for SecurityUser and
ApplySecurityUsers. -/
theorem apply_dispatch {E σ U C : Type} (env : Collaborators E σ U C) (filePath : String)
    (w : σ) (manifest : Bytes) (applyFile : ApplyFile)
    (hread : env.ReadJSONFile filePath = Except.ok manifest)
    (hdec : (unmarshalApplyFile manifest : Except (GoError E) ApplyFile) = Except.ok applyFile) :
    (∀ rerouteCommand, applyFile.Kind = "ClusterReroute" →
      unmarshalBody env.decodeCommand applyFile.Body = Except.ok rerouteCommand →
      Action env filePath w =
        ⟨(env.ApplyClusterReroute rerouteCommand w).1,
          [Call.ApplyClusterReroute rerouteCommand],
          (env.ApplyClusterReroute rerouteCommand w).2⟩) ∧
    (∀ securityUser, applyFile.Kind = "SecurityUser" →
      unmarshalBody env.decodeSecurityUsers applyFile.Body = Except.ok securityUser →
      Action env filePath w =
        ⟨(env.ApplySecurityUsers securityUser w).1,
          [Call.ApplySecurityUsers securityUser],
          (env.ApplySecurityUsers securityUser w).2⟩) := by
  constructor
  · intro cmd hk hb
    simp only [Action, hread, hdec, hk, hb]
    rcases hr : env.ApplyClusterReroute cmd w with ⟨e, w'⟩
    cases e <;> simp
  · intro users hk hb
    simp only [Action, hread, hdec, hk, hb]
    rcases hr : env.ApplySecurityUsers users w with ⟨e, w'⟩
    cases e <;> simp

/-- Witness of C8: a reroute manifest applied to a cluster that answers with the error
boom makes one applier call and returns that error. -/
theorem apply_dispatch_witness :
    Action (fileEnv rerouteManifest) "m.json" (some "boom") =
      ⟨some (GoError.External "boom"), [Call.ApplyClusterReroute (Json.object [])],
        some "boom"⟩ :=
  (apply_dispatch (fileEnv rerouteManifest) "m.json" (some "boom") rerouteManifest
    ⟨"ClusterReroute", Bytes.valid (Json.object [])⟩ rfl rfl).1 (Json.object []) rfl rfl

/-- C9: when the kind is SecurityUser or ClusterReroute and the body does not decode with
the decoder of that kind, the action returns the error of that decoding and calls no
applier. -/
theorem apply_body_error {E σ U C : Type} (env : Collaborators E σ U C) (filePath : String)
    (w : σ) (manifest : Bytes) (applyFile : ApplyFile)
    (hread : env.ReadJSONFile filePath = Except.ok manifest)
    (hdec : (unmarshalApplyFile manifest : Except (GoError E) ApplyFile) = Except.ok applyFile) :
    (∀ e, applyFile.Kind = "SecurityUser" →
      unmarshalBody env.decodeSecurityUsers applyFile.Body = Except.error e →
      Action env filePath w = ⟨some e, [], w⟩) ∧
    (∀ e, applyFile.Kind = "ClusterReroute" →
      unmarshalBody env.decodeCommand applyFile.Body = Except.error e →
      Action env filePath w = ⟨some e, [], w⟩) := by
  constructor
  · intro e hk hb
    simp [Action, hread, hdec, hk, hb]
  · intro e hk hb
    simp [Action, hread, hdec, hk, hb]

/-- Witness of C9: a reroute manifest whose body is a number fails in the body decoder. -/
theorem apply_body_error_witness :
    Action (fileEnv rerouteBadBody) "m.json" none =
      ⟨some (GoError.UnmarshalTypeError "number" ""), [], none⟩ :=
  (apply_body_error (fileEnv rerouteBadBody) "m.json" none rerouteBadBody
    ⟨"ClusterReroute", Bytes.valid (Json.number "1")⟩ rfl rfl).2
    (GoError.UnmarshalTypeError "number" "") rfl rfl

/-! ## The completion callback -/

/-- Counterexample to C3: with the catalog of search and the text search BY, the fragment BY
selects both by-id and by-query, which a case-sensitive comparison rejects. -/
theorem completer_case_counterexample :
    completer ToUpperASCII [] searchCatalog ⟨"search BY", "BY"⟩ =
        [⟨"by-id", "By ID"⟩, ⟨"by-query", "By Query"⟩] ∧
      (candidates [] searchCatalog "search BY").filter (fun s => HasPrefix s.Text "BY") = [] := by
  decide

/-- C3, amended: the completion callback returns exactly the candidates whose upper-cased
text starts with the upper-cased fragment, every candidate when the fragment is empty, in
the order of the candidate list; the same holds of FilterHasPrefix on any list. -/
theorem completer_filters_ignoring_case (upper : String → String) (commands : List Command)
    (options : String → Option (List Suggest)) (text w : String) :
    completer upper commands options ⟨text, w⟩ =
        (candidates commands options text).filter
          (fun s => decide (w = "") || HasPrefix (upper s.Text) (upper w)) ∧
      List.Sublist (completer upper commands options ⟨text, w⟩)
        (candidates commands options text) ∧
      ∀ cands : List Suggest, FilterHasPrefix upper cands w true =
        cands.filter (fun s => decide (w = "") || HasPrefix (upper s.Text) (upper w)) := by
  have hf : ∀ cands : List Suggest, FilterHasPrefix upper cands w true =
      cands.filter (fun s => decide (w = "") || HasPrefix (upper s.Text) (upper w)) :=
    fun cands => filterSuggestions_ignoreCase upper cands w HasPrefix
  refine ⟨?_, ?_, hf⟩
  · rw [completer_eq, hf]
  · rw [completer_eq, hf]
    exact List.filter_sublist _

/-- Counterexample to C4: with the catalog of search, the text search, a tab, by and a
space has the two whitespace-separated tokens search and by, so the entry of search should
be offered, by-id and by-query; the callback cuts the text at the space only, finds no key
among the two pieces and returns nothing. The same happens with a no-break space. -/
theorem completer_tab_counterexample :
    2 ≤ (Fields "search\tby ").length ∧
      FilterHasPrefix ToUpperASCII (candidatesPerSpec searchCatalog (Fields "search\tby ")) ""
        true = [⟨"by-id", "By ID"⟩, ⟨"by-query", "By Query"⟩] ∧
      Split "search\tby " ' ' = ["search\tby", ""] ∧
      completer ToUpperASCII [] searchCatalog ⟨"search\tby ", ""⟩ = [] ∧
      2 ≤ (Fields "search\u00a0by ").length ∧
      FilterHasPrefix ToUpperASCII (candidatesPerSpec searchCatalog (Fields "search\u00a0by "))
        "" true = [⟨"by-id", "By ID"⟩, ⟨"by-query", "By Query"⟩] ∧
      completer ToUpperASCII [] searchCatalog ⟨"search\u00a0by ", ""⟩ = [] := by
  decide

/-- C4, amended: the tokens are the pieces of the text between single spaces. For a text
with two or more of them the candidate set is the catalog entry of the last token that is
a catalog key and starts neither with a dash nor with a single quote, and is empty when
there is no such token; the callback returns that set filtered by the fragment. On a
catalog without a key that starts with a double quote this is the rule that skips both
quote characters. When the only white space of the text is the space character and the
empty string is not a key, the whitespace-separated tokens select the same set, so that
the rule holds for them as it is written. With the catalog of search, the text search by
gives by-id and by-query in that order, and search bz gives nothing. -/
theorem completer_last_key :
    (∀ (upper : String → String) (commands : List Command)
      (options : String → Option (List Suggest)) (text w : String),
      2 ≤ (Split text ' ').length →
      candidates commands options text = lastSelected options (Split text ' ') ∧
      completer upper commands options ⟨text, w⟩ =
        FilterHasPrefix upper (lastSelected options (Split text ' ')) w true) ∧
    (∀ (options : String → Option (List Suggest)) (args : List String),
      (∀ k, HasPrefix k "\"" = true → options k = none) →
      lastSelected options args = candidatesPerSpec options args) ∧
    (∀ (upper : String → String) (commands : List Command)
      (options : String → Option (List Suggest)) (text w : String),
      (∀ c ∈ text.data, isSpace c = true → c = ' ') →
      options "" = none →
      (∀ k, HasPrefix k "\"" = true → options k = none) →
      2 ≤ (Fields text).length →
      Fields text = (Split text ' ').filter (fun s => decide (s ≠ "")) ∧
      candidates commands options text = candidatesPerSpec options (Fields text) ∧
      completer upper commands options ⟨text, w⟩ =
        FilterHasPrefix upper (candidatesPerSpec options (Fields text)) w true) ∧
    completer ToUpperASCII [] searchCatalog ⟨"search by", "by"⟩ =
      [⟨"by-id", "By ID"⟩, ⟨"by-query", "By Query"⟩] ∧
    completer ToUpperASCII [] searchCatalog ⟨"search bz", "bz"⟩ = [] := by
  have hcode : ∀ (commands : List Command) (options : String → Option (List Suggest))
      (text : String), 2 ≤ (Split text ' ').length →
      candidates commands options text = lastSelected options (Split text ' ') := by
    intro commands options text h
    have hne : text ≠ "" := by
      intro ht
      subst ht
      revert h
      decide
    unfold candidates
    rw [if_neg hne, if_neg (by omega), foldl_scanStep_nil]
  refine ⟨?_, ?_, ?_, by decide, by decide⟩
  · intro upper commands options text w h
    have hc := hcode commands options text h
    exact ⟨hc, by rw [completer_eq, hc]⟩
  · intro options args hq
    exact lastSelected_eq_candidatesPerSpec options hq args
  · intro upper commands options text w hsp hempty hq h
    have hf := Fields_eq_Split text hsp
    have hlen : 2 ≤ (Split text ' ').length := by
      have hle : (Fields text).length ≤ (Split text ' ').length := by
        rw [hf]
        exact List.length_filter_le _ _
      omega
    have hsel : lastSelected options (Fields text) = lastSelected options (Split text ' ') := by
      unfold lastSelected
      rw [hf, selects_filter_nonempty options _ hempty]
    have hc : candidates commands options text = candidatesPerSpec options (Fields text) := by
      rw [hcode commands options text hlen, ← hsel,
        lastSelected_eq_candidatesPerSpec options hq]
    exact ⟨hf, hc, by rw [completer_eq, hc]⟩

/-- Witness of C4, amended: the text search by has two pieces and two whitespace tokens,
the catalog of search has no key that is empty or starts with a double quote, and the
callback filters the entry of search. -/
theorem completer_last_key_witness :
    2 ≤ (Split "search by" ' ').length ∧ 2 ≤ (Fields "search by").length ∧
      completer ToUpperASCII indexCommands searchCatalog ⟨"search by", "by"⟩ =
        FilterHasPrefix ToUpperASCII (lastSelected searchCatalog (Split "search by" ' ')) "by"
          true ∧
      completer ToUpperASCII indexCommands searchCatalog ⟨"search by", "by"⟩ =
        FilterHasPrefix ToUpperASCII (candidatesPerSpec searchCatalog (Fields "search by")) "by"
          true :=
  ⟨by decide, by decide,
    (completer_last_key.1 ToUpperASCII indexCommands searchCatalog "search by" "by"
      (by decide)).2,
    (completer_last_key.2.2.1 ToUpperASCII indexCommands searchCatalog "search by" "by"
      (by decide)
      (by decide)
      (fun k hk => by
        unfold searchCatalog
        have hne : k ≠ "search" := by
          intro h
          subst h
          revert hk
          decide
        simp [hne])
      (by decide)).2.2⟩

/-- Counterexample to C5: the text index followed by one space has a single
whitespace-separated token, yet the callback offers the children of index and not the
top-level commands; and a text with a tab between two tokens has two of them, yet it is one
piece for the callback, which offers the top-level commands. -/
theorem completer_whitespace_counterexample :
    "index " ≠ "" ∧ (Fields "index ").length < 2 ∧
      completer ToUpperASCII indexCommands indexCatalog ⟨"index ", ""⟩ =
        [⟨"create", "Create an index"⟩, ⟨"delete", "Delete an index"⟩] ∧
      FilterHasPrefix ToUpperASCII
        (indexCommands.map fun cmd => Suggest.mk cmd.Name cmd.Usage) "" true =
        [⟨"index", "Index operations"⟩] ∧
      2 ≤ (Fields "index\tcreate").length ∧ (Split "index\tcreate" ' ').length < 2 ∧
      candidates indexCommands indexCatalog "index\tcreate" =
        [⟨"index", "Index operations"⟩] := by
  decide

/-- C5, amended: the text is cut at every single space and at nothing else. A text that
is not empty and holds no space is one piece, and the candidate set is the list of the
top-level commands, one suggestion per command with its name and usage, in command order,
which the callback returns filtered by the fragment; a text that holds a space has two or
more pieces and the candidate set comes from the scan of the pieces. -/
theorem completer_top_level (upper : String → String) (commands : List Command)
    (options : String → Option (List Suggest)) (text w : String) (hne : text ≠ "") :
    ((Split text ' ').length < 2 ↔ ' ' ∉ text.data) ∧
    (' ' ∉ text.data →
      candidates commands options text =
        commands.map (fun cmd => Suggest.mk cmd.Name cmd.Usage) ∧
      completer upper commands options ⟨text, w⟩ =
        FilterHasPrefix upper (commands.map fun cmd => Suggest.mk cmd.Name cmd.Usage) w true) ∧
    (' ' ∈ text.data →
      candidates commands options text = (Split text ' ').foldl (scanStep options) [] ∧
      completer upper commands options ⟨text, w⟩ =
        FilterHasPrefix upper ((Split text ' ').foldl (scanStep options) []) w true) := by
  refine ⟨Split_length_lt_two text ' ', ?_, ?_⟩
  · intro h
    have hlt := (Split_length_lt_two text ' ').mpr h
    have hc : candidates commands options text =
        commands.map (fun cmd => Suggest.mk cmd.Name cmd.Usage) := by
      unfold candidates
      rw [if_neg hne, if_pos hlt]
    exact ⟨hc, by rw [completer_eq, hc]⟩
  · intro h
    have hge : ¬ (Split text ' ').length < 2 := fun hlt =>
      (Split_length_lt_two text ' ').mp hlt h
    have hc : candidates commands options text =
        (Split text ' ').foldl (scanStep options) [] := by
      unfold candidates
      rw [if_neg hne, if_neg hge]
    exact ⟨hc, by rw [completer_eq, hc]⟩

/-- Witness of C5, amended: the text ind holds no space and is completed from the
top-level commands. -/
theorem completer_top_level_witness :
    "ind" ≠ "" ∧ ' ' ∉ "ind".data ∧
      completer ToUpperASCII indexCommands indexCatalog ⟨"ind", "ind"⟩ =
        FilterHasPrefix ToUpperASCII
          (indexCommands.map fun cmd => Suggest.mk cmd.Name cmd.Usage) "ind" true :=
  ⟨by decide, by decide,
    ((completer_top_level ToUpperASCII indexCommands indexCatalog "ind" "ind"
      (by decide)).2.1 (by decide)).2⟩

/-- C10: for every catalog, command list and fragment, the completion callback returns
no suggestion when the text before the cursor is empty. -/
theorem completer_empty_text (upper : String → String) (commands : List Command)
    (options : String → Option (List Suggest)) (w : String) :
    completer upper commands options ⟨"", w⟩ = [] := by
  simp [completer]

/-! ## The executor callback -/

theorem parseCLIArguments_of_fields (line : String) (h : Fields line ≠ []) :
    parseCLIArguments line = APP_NAME :: Fields line := by
  unfold parseCLIArguments
  have hl : (Fields line).length ≠ 0 := fun h0 => h (List.length_eq_zero.mp h0)
  simp [hl]

theorem parseCLIArguments_of_no_fields (line : String) (h : Fields line = []) :
    parseCLIArguments line = [] := by
  simp [parseCLIArguments, h]

/-- C6: the executor callback ends the process exactly when the line is exit. In that
case it prints the farewell, exits with code 0 and never calls app.Run; the line exitfoo
does not end the process. -/
theorem executor_exit {E σ : Type} (run : List String → σ → Option E × σ) (input : String)
    (w : σ) :
    ((∃ code, Effect.Exit code ∈ (executor run input w).1) ↔ input = "exit") ∧
    (executor run "exit" w = ([Effect.Println "Exiting REPL...", Effect.Exit 0], w)) ∧
    (∀ arguments, Effect.Run arguments ∉ (executor run "exit" w).1) ∧
    (∀ code, Effect.Exit code ∉ (executor run "exitfoo" w).1) := by
  have hno : ∀ line : String, line ≠ "exit" →
      ∀ code, Effect.Exit code ∉ (executor run line w).1 := by
    intro line hl code
    unfold executor
    rw [if_neg hl]
    simp only
    split
    · split <;> simp
    · simp
  have hexit : executor run "exit" w = ([Effect.Println "Exiting REPL...", Effect.Exit 0], w) := by
    simp [executor]
  refine ⟨⟨?_, ?_⟩, hexit, ?_, hno "exitfoo" (by decide)⟩
  · rintro ⟨code, hmem⟩
    by_contra hl
    exact hno input hl code hmem
  · intro hl
    subst hl
    exact ⟨0, by rw [hexit]; simp⟩
  · intro arguments
    rw [hexit]
    simp

/-- Counterexample to C7: for the empty line and for a line of blanks parseCLIArguments
returns the empty list, not the one-element list with the program name, and the executor
does not call app.Run at all. -/
theorem executor_blank_counterexample :
    "" ≠ "exit" ∧ parseCLIArguments "" = [] ∧ APP_NAME :: Fields "" = ["elastic_tools"] ∧
      (executor runOk "" ()).1 = [] ∧
      " \t " ≠ "exit" ∧ parseCLIArguments " \t " = [] ∧ (executor runOk " \t " ()).1 = [] := by
  decide

/-- C7, amended: for a line other than exit that has at least one whitespace-separated
token, parseCLIArguments returns the program name followed by the tokens in order, and the
executor calls app.Run exactly once, with that list, the world being what that call leaves.
For a line without any token, which is a line made of white space only, the empty line
included, parseCLIArguments returns the empty list and the executor does nothing. -/
theorem executor_dispatch {E σ : Type} (run : List String → σ → Option E × σ) (line : String)
    (w : σ) (hne : line ≠ "exit") :
    (Fields line ≠ [] →
      parseCLIArguments line = "elastic_tools" :: Fields line ∧
      (executor run line w).1.filter Effect.isRun =
        [Effect.Run ("elastic_tools" :: Fields line)] ∧
      (executor run line w).2 = (run ("elastic_tools" :: Fields line) w).2) ∧
    (Fields line = [] → parseCLIArguments line = [] ∧ executor run line w = ([], w)) ∧
    (Fields line = [] ↔ ∀ c ∈ line.data, isSpace c = true) := by
  refine ⟨?_, ?_, ?_⟩
  · intro hf
    have hp := parseCLIArguments_of_fields line hf
    have hp' : parseCLIArguments line = "elastic_tools" :: Fields line := hp
    refine ⟨hp', ?_⟩
    unfold executor
    rw [if_neg hne]
    simp only [hp', List.length_cons, gt_iff_lt, Nat.zero_lt_succ, if_true]
    rcases hr : run ("elastic_tools" :: Fields line) w with ⟨e, w'⟩
    cases e <;> simp [Effect.isRun]
  · intro hf
    have hp := parseCLIArguments_of_no_fields line hf
    refine ⟨hp, ?_⟩
    unfold executor
    rw [if_neg hne]
    simp [hp]
  · unfold Fields
    rw [fieldsFrom_eq_nil]
    simp

/-- Witness of C7, amended: the line index create is run once, as elastic_tools index
create. -/
theorem executor_dispatch_witness :
    "index create" ≠ "exit" ∧ Fields "index create" ≠ [] ∧
      (executor runOk "index create" ()).1.filter Effect.isRun =
        [Effect.Run ("elastic_tools" :: Fields "index create")] :=
  ⟨by decide, by decide,
    ((executor_dispatch runOk "index create" () (by decide)).1 (by decide)).2.1⟩

end ElasticTools
